import Mathlib

/-!
Verification of the spaced-repetition scheduling engine of `anki-app`.

The engine lives in `src/lib/sm2.ts` (`calculateNextReview`, `reviewCard`,
`isDue`, `getDueCards`) and `src/stores/useStore.ts` (`getExamStats`,
`getSmartStudyQueue`).  JavaScript numbers are embedded as exact rationals
(`ℚ`); integer counters are embedded as `ℤ`; timestamps (`Date.getTime()`
milliseconds) as `ℤ`.
-/

namespace AnkiApp

/-- JavaScript `Math.round`: rounds half-way cases toward positive infinity,
i.e. `Math.round x = ⌊x + 1/2⌋`. -/
def jround (x : ℚ) : ℤ := ⌊x + 1/2⌋

/-- The constant `MINUTES_PER_DAY` from `sm2.ts`. -/
def MINUTES_PER_DAY : ℚ := 24 * 60

/-- The record returned by `calculateNextReview` (`ReviewResult` in
`types.ts`). -/
structure ReviewResult where
  interval : ℚ
  repetition : ℤ
  easeFactor : ℚ
  deriving Repr, DecidableEq

/-- Embedding of `calculateNextReview` from `sm2.ts`: the SM-2 transition
with Anki-style learning steps.  `quality` is embedded as an unrestricted
integer; the TypeScript `Quality` union type confines callers to `0..5`
(see `advance`). -/
def calculateNextReview (quality : ℤ) (repetition : ℤ) (easeFactor : ℚ)
    (interval : ℚ) : ReviewResult :=
  -- Again (quality 0-1): 1 minute, reset to step 0
  if quality < 2 then
    { interval := 1 / MINUTES_PER_DAY
      repetition := 0
      easeFactor := max (13/10) (easeFactor - 2/10) }
  -- Hard-fail (quality 2): 10 minutes, reset to step 1
  else if quality = 2 then
    { interval := 10 / MINUTES_PER_DAY
      repetition := 0
      easeFactor := max (13/10) (easeFactor - 1/10) }
  else
    let newEaseFactor : ℚ :=
      max (13/10)
        (easeFactor +
          (1/10 - ((5 - quality : ℤ) : ℚ) * (8/100 + ((5 - quality : ℤ) : ℚ) * (2/100))))
    if (repetition = 0 ∨ interval < 1) ∧ interval < 5 / MINUTES_PER_DAY then
      -- Step 0 (1min): Good advances to step 1, Easy graduates
      if quality = 3 then
        { interval := 1 / MINUTES_PER_DAY, repetition := 0, easeFactor := newEaseFactor }
      else if quality = 5 then
        { interval := 4, repetition := 1, easeFactor := newEaseFactor }
      else
        { interval := 10 / MINUTES_PER_DAY, repetition := 0, easeFactor := newEaseFactor }
    else if repetition = 0 ∨ interval < 1 then
      -- Step 1 (10min): Good graduates to 1 day, Easy to 4 days
      if quality = 3 then
        { interval := 10 / MINUTES_PER_DAY, repetition := 0, easeFactor := newEaseFactor }
      else if quality = 5 then
        { interval := 4, repetition := 1, easeFactor := newEaseFactor }
      else
        { interval := 1, repetition := 1, easeFactor := newEaseFactor }
    else if repetition = 1 then
      -- First review after graduation: EF-based scaling
      if quality = 3 then
        { interval := max 1 interval, repetition := repetition + 1, easeFactor := newEaseFactor }
      else if quality = 5 then
        { interval := max (interval + 1) ((jround (interval * newEaseFactor * 3) : ℤ) : ℚ)
          repetition := repetition + 1
          easeFactor := newEaseFactor }
      else
        { interval := max 4 ((jround (interval * newEaseFactor) : ℤ) : ℚ)
          repetition := repetition + 1
          easeFactor := newEaseFactor }
    else
      -- Mature card (rep >= 2): standard SM-2 with Easy bonus
      if quality = 3 then
        { interval := max interval ((jround (interval * (12/10)) : ℤ) : ℚ)
          repetition := repetition + 1
          easeFactor := newEaseFactor }
      else if quality = 5 then
        { interval := max (interval + 1) ((jround (interval * newEaseFactor * (13/10)) : ℤ) : ℚ)
          repetition := repetition + 1
          easeFactor := newEaseFactor }
      else
        { interval := max (interval + 1) ((jround (interval * newEaseFactor) : ℤ) : ℚ)
          repetition := repetition + 1
          easeFactor := newEaseFactor }

/-- The constant `LAPSE_NEW_INTERVAL_PERCENT` from `sm2.ts`. -/
def LAPSE_NEW_INTERVAL_PERCENT : ℚ := 1/2

/-- The scheduling-relevant fields of a `Card` (`types.ts`), with
`nextReview` embedded as a millisecond timestamp. -/
structure Card where
  id : String
  deckId : String
  subject : Option String
  interval : ℚ
  repetition : ℤ
  easeFactor : ℚ
  lapseInterval : Option ℚ
  nextReview : ℤ
  deriving Repr, DecidableEq

/-- Interval-to-timestamp conversion at the end of `reviewCard`: sub-day
intervals add `Math.round(interval * 1440)` minutes; day-scale intervals add
whole days (`Date.setDate`, which truncates its argument to an integer;
calendar days are embedded as 86400000 ms). -/
def nextReviewTimestamp (now : ℤ) (newInterval : ℚ) : ℤ :=
  if newInterval < 1 then
    now + jround (newInterval * MINUTES_PER_DAY) * 60 * 1000
  else
    now + ⌊newInterval⌋ * 86400000

/-- The `lapseInterval` value after the tracking step of `reviewCard`
(`if (quality < 3 && card.interval >= 1 && card.repetition >= 1)
lapseInterval = card.interval`). -/
def recordedLapse (card : Card) (quality : ℤ) : Option ℚ :=
  if quality < 3 ∧ 1 ≤ card.interval ∧ 1 ≤ card.repetition then some card.interval
  else card.lapseInterval

/-- Embedding of `reviewCard` from `sm2.ts`: applies `calculateNextReview`
and the wrapper-level lapse bookkeeping, with the review instant `now`
passed explicitly in place of `new Date()`. -/
def reviewCard (card : Card) (quality : ℤ) (now : ℤ) : Card :=
  let result := calculateNextReview quality card.repetition card.easeFactor card.interval
  -- Track lapse: graduated card fails → save pre-lapse interval
  let lapse1 : Option ℚ := recordedLapse card quality
  -- Lapse recovery: graduating from relearning → use % of old interval
  let newInterval : ℚ :=
    match lapse1 with
    | some li =>
        if 1 ≤ result.interval ∧ 1 ≤ result.repetition then
          max (max 1 ((jround (li * LAPSE_NEW_INTERVAL_PERCENT) : ℤ) : ℚ)) result.interval
        else result.interval
    | none => result.interval
  let lapse2 : Option ℚ :=
    match lapse1 with
    | some li =>
        if 1 ≤ result.interval ∧ 1 ≤ result.repetition then none
        else some li
    | none => none
  { card with
    interval := newInterval
    repetition := result.repetition
    easeFactor := result.easeFactor
    lapseInterval := lapse2
    nextReview := nextReviewTimestamp now newInterval }

/-- The error taxonomy of the review state machine. -/
inductive SchedulingError where
  | invalidRating
  deriving Repr, DecidableEq

/-- The review transition guarded by the `Quality = 0|1|2|3|4|5` union type
of `types.ts`: a quality outside `[0,5]` cannot reach `calculateNextReview`
and is rejected at the boundary as `InvalidRating`. -/
def advance (quality : ℤ) (repetition : ℤ) (easeFactor : ℚ) (interval : ℚ) :
    Except SchedulingError ReviewResult :=
  if 0 ≤ quality ∧ quality ≤ 5 then
    .ok (calculateNextReview quality repetition easeFactor interval)
  else
    .error .invalidRating

/-- Embedding of `isDue` from `sm2.ts`, with the clock `now` explicit. -/
def isDue (card : Card) (now : ℤ) : Bool := card.nextReview ≤ now

/-- Comparison used by `getDueCards`: `nextReview` ascending. -/
def timeLe (a b : Card) : Bool := a.nextReview ≤ b.nextReview

/-- Embedding of `getDueCards` from `sm2.ts`: filter the due cards, sort by
`nextReview` ascending (JavaScript `Array.prototype.sort` is stable, as is
`List.mergeSort`). -/
def getDueCards (cards : List Card) (now : ℤ) : List Card :=
  (cards.filter (fun c => isDue c now)).mergeSort timeLe

/-- The fields of a `Deck` used by the allocator (`types.ts`). -/
structure Deck where
  id : String
  name : String
  deriving Repr, DecidableEq

/-- The fields of an `Exam` used by the allocator and queue builder
(`types.ts`), with `examDate` embedded as a millisecond timestamp. -/
structure Exam where
  id : String
  name : String
  examDate : ℤ
  deckPattern : String
  weight : ℚ
  prioritySubjects : List String
  deriving Repr, DecidableEq

/-- A `WeakPointRecommendation` entry (`types.ts`): the external weak-point
signal `(examName, subject, priorityScore)`. -/
structure WeakPointRecommendation where
  examName : String
  subject : String
  priorityScore : ℚ
  deriving Repr, DecidableEq

/-- The `ExamStats` record returned by `getExamStats` (`types.ts`). -/
structure ExamStats where
  examId : String
  daysLeft : ℤ
  totalCards : ℕ
  masteredCards : ℕ
  dueCards : ℕ
  dailyQuota : ℤ
  deriving Repr, DecidableEq

/-- Embedding of `exam.deckPattern ? decks.filter((d) => d.name.includes(exam.deckPattern)) : []`
from `useStore.ts`: the empty pattern is falsy and yields no decks;
`String.prototype.includes` is substring containment. -/
def examDecksOf (exam : Exam) (decks : List Deck) : List Deck :=
  if exam.deckPattern = "" then []
  else decks.filter (fun d => decide (exam.deckPattern.data <:+: d.name.data))

/-- Membership of a card's `deckId` in the exam's deck-id set
(`examDeckIds.has(c.deckId)`). -/
def cardInExam (exam : Exam) (decks : List Deck) (c : Card) : Bool :=
  (examDecksOf exam decks).any (fun d => decide (d.id = c.deckId))

/-- The first-pass per-exam record of `getExamStats` (`rawData`). -/
structure RawGoal where
  exam : Exam
  daysLeft : ℤ
  totalCards : ℕ
  masteredCards : ℕ
  dueCards : ℕ
  remaining : ℤ
  urgency : ℚ
  deriving Repr, DecidableEq

/-- First pass of `getExamStats` from `useStore.ts`: per-exam snapshot with
`daysLeft = max(1, ceil((examDate - now) / 86400000))` and
`urgency = (1 / daysLeft) * weight`. -/
def rawGoalOf (exam : Exam) (decks : List Deck) (cards : List Card) (now : ℤ) : RawGoal :=
  let examCards := cards.filter (cardInExam exam decks)
  let daysLeft : ℤ := max 1 ⌈((exam.examDate - now : ℤ) : ℚ) / 86400000⌉
  let masteredCards := (examCards.filter (fun c => decide (3 ≤ c.repetition))).length
  let dueCards := (examCards.filter (fun c => decide (c.nextReview ≤ now))).length
  { exam := exam
    daysLeft := daysLeft
    totalCards := examCards.length
    masteredCards := masteredCards
    dueCards := dueCards
    remaining := (examCards.length : ℤ) - (masteredCards : ℤ)
    urgency := (1 / (daysLeft : ℚ)) * exam.weight }

/-- JavaScript `x || 1` on a number: `1` when `x` is zero (falsy), else `x`. -/
def orOne (x : ℚ) : ℚ := if x = 0 then 1 else x

/-- Embedding of `getExamStats` from `useStore.ts`: urgency-weighted daily
quotas, with `urgencySum = sum || 1` (JavaScript `||` replaces a zero sum
by `1`) and `dailyQuota = max(5, ceil(rawQuota * share * exams.length))`. -/
def getExamStats (exams : List Exam) (decks : List Deck) (cards : List Card)
    (now : ℤ) : List ExamStats :=
  if exams = [] then []
  else
    let rawData := exams.map (fun e => rawGoalOf e decks cards now)
    let urgencySum := orOne ((rawData.map (fun d => d.urgency)).sum)
    rawData.map (fun d =>
      { examId := d.exam.id
        daysLeft := d.daysLeft
        totalCards := d.totalCards
        masteredCards := d.masteredCards
        dueCards := d.dueCards
        dailyQuota :=
          max 5 ⌈(d.remaining : ℚ) / (d.daysLeft : ℚ) * (d.urgency / urgencySum) *
            (exams.length : ℚ)⌉ })

/-- The weak-point score lookup of `getSmartStudyQueue`: the per-exam
`Map` is built by successive `set` calls (last entry wins), read back with
`weakSubjectScores.get(c.subject || '') ?? 0`. -/
def weakScore (recs : List WeakPointRecommendation) (exam : Exam) (c : Card) : ℚ :=
  match ((recs.filter (fun r => decide (r.examName = exam.name))).reverse.find?
      (fun r => decide (r.subject = c.subject.getD ""))) with
  | some r => r.priorityScore
  | none => 0

/-- Embedding of `exam.prioritySubjects.includes(c.subject || ...)` from `useStore.ts`. -/
def isPrioritySubject (exam : Exam) (c : Card) : Bool :=
  exam.prioritySubjects.contains (c.subject.getD "")

/-- The tier computed inside the `getSmartStudyQueue` comparator:
priority+weak = 3, priority = 2, weak = 1, other = 0. -/
def tierOf (exam : Exam) (recs : List WeakPointRecommendation) (c : Card) : ℕ :=
  if isPrioritySubject exam c ∧ 0 < weakScore recs exam c then 3
  else if isPrioritySubject exam c then 2
  else if 0 < weakScore recs exam c then 1
  else 0

/-- The `getSmartStudyQueue` comparator as a `≤`-test: `queueLe a b` holds
exactly when the JavaScript comparator returns a non-positive number on
`(a, b)` (tier descending, then `priorityScore` descending, then
`nextReview` ascending). -/
def queueLe (exam : Exam) (recs : List WeakPointRecommendation) (a b : Card) : Bool :=
  if tierOf exam recs a = tierOf exam recs b then
    if weakScore recs exam a = weakScore recs exam b then
      decide (a.nextReview ≤ b.nextReview)
    else
      decide (weakScore recs exam b ≤ weakScore recs exam a)
  else
    decide (tierOf exam recs b ≤ tierOf exam recs a)

/-- The goal's due items inside `getSmartStudyQueue`: cards of the exam's
decks that are due, sorted by `nextReview` ascending. -/
def goalDueCards (exam : Exam) (decks : List Deck) (cards : List Card) (now : ℤ) :
    List Card :=
  (cards.filter (fun c => cardInExam exam decks c && decide (c.nextReview ≤ now))).mergeSort
    timeLe

/-- The goal's due items after the tier re-sort (`dueCards.sort(...)` with
the priority comparator). -/
def goalSortedDue (exam : Exam) (decks : List Deck) (cards : List Card)
    (recs : List WeakPointRecommendation) (now : ℤ) : List Card :=
  (goalDueCards exam decks cards now).mergeSort (queueLe exam recs)

/-- The round-robin interleaving loop at the end of `getSmartStudyQueue`:
each pass takes one item from every non-exhausted bucket in order (the
`while (anyAdded)` loop, with the per-bucket index replaced by the bucket's
remaining tail). -/
def roundRobin {α : Type} (bs : List (List α)) : List α :=
  if h : bs.all (fun b => b.isEmpty) = true then []
  else (bs.filterMap List.head?) ++ roundRobin (bs.map List.tail)
termination_by (bs.map List.length).sum
decreasing_by
  have hle : ∀ (l : List (List α)),
      ((l.map List.tail).map List.length).sum ≤ (l.map List.length).sum := by
    intro l
    induction l with
    | nil => simp
    | cons hd tl ih =>
        simp only [List.map_cons, List.sum_cons]
        have : hd.tail.length ≤ hd.length := by cases hd <;> simp
        omega
  have key : ∀ (l : List (List α)), ¬ l.all (fun b => b.isEmpty) = true →
      ((l.map List.tail).map List.length).sum < (l.map List.length).sum := by
    intro l
    induction l with
    | nil => intro hl; simp at hl
    | cons hd tl ih =>
        intro hl
        simp only [List.all_cons, Bool.and_eq_true, not_and_or] at hl
        simp only [List.map_cons, List.sum_cons]
        rcases hl with hl | hl
        · have h1 : hd.tail.length < hd.length := by
            cases hd with
            | nil => simp at hl
            | cons x xs => simp
          have h2 := hle tl
          omega
        · have h1 : hd.tail.length ≤ hd.length := by cases hd <;> simp
          have h2 := ih hl
          omega
  exact key bs h

/-- The per-goal buckets built by `getSmartStudyQueue`: each goal's sorted
due list truncated to its `dailyQuota` (`dueCards.slice(0, stat.dailyQuota)`,
with the exam looked up by id as in `exams.find((e) => e.id === stat.examId)`). -/
def queueBuckets (exams : List Exam) (decks : List Deck) (cards : List Card)
    (recs : List WeakPointRecommendation) (now : ℤ) : List (List Card) :=
  (getExamStats exams decks cards now).map (fun stat =>
    match exams.find? (fun e => decide (e.id = stat.examId)) with
    | some exam => (goalSortedDue exam decks cards recs now).take stat.dailyQuota.toNat
    | none => [])

/-- Embedding of `getSmartStudyQueue` from `useStore.ts`. -/
def getSmartStudyQueue (exams : List Exam) (decks : List Deck) (cards : List Card)
    (recs : List WeakPointRecommendation) (now : ℤ) : List Card :=
  if getExamStats exams decks cards now = [] then getDueCards cards now
  else roundRobin (queueBuckets exams decks cards recs now)

/-- The queue ordering as §4.4 of the spec words it: tier descending, then
`priorityScore` descending, then `nextReviewAt` ascending.  Written from the
spec's wording, to be compared with the `queueLe` comparator. -/
def specLe (exam : Exam) (recs : List WeakPointRecommendation) (a b : Card) : Prop :=
  tierOf exam recs b < tierOf exam recs a ∨
    (tierOf exam recs a = tierOf exam recs b ∧
      (weakScore recs exam b < weakScore recs exam a ∨
        (weakScore recs exam a = weakScore recs exam b ∧ a.nextReview ≤ b.nextReview)))

/-- The tentative ease factor for a successful rating (`ease'` in the spec,
`newEaseFactor` in `sm2.ts`). -/
def specEase (q : ℤ) (ef : ℚ) : ℚ :=
  max (13/10) (ef + (1/10 - ((5 - q : ℤ) : ℚ) * (8/100 + ((5 - q : ℤ) : ℚ) * (2/100))))

/-- The mature item of the spec's Scenario D: repetition 3, interval 10,
ease 2.5, no recorded lapse, due at time 0. -/
def scenarioDCard : Card := ⟨"c", "d", none, 10, 3, 5/2, none, 0⟩

/-- The quantity `daysLeft` as §4.3 of the spec words it:
`max(1, ceil((deadline - now) / 1 day))`, with one day = 86400000 ms. -/
def specDaysLeft (deadline now : ℤ) : ℤ := max 1 ⌈((deadline - now : ℤ) : ℚ) / 86400000⌉

/-- The quantity `urgency = (1 / daysLeft) * weight` as §4.3 of the spec words it. -/
def specUrgency (deadline now : ℤ) (weight : ℚ) : ℚ :=
  (1 / (specDaysLeft deadline now : ℚ)) * weight

/-- The quota allocator as §4.3 of the spec words it, per goal: the goal
snapshot (`totalItems`, `masteredItems` = repetition ≥ 3, `dueItems`,
`remainingItems = totalItems - masteredItems`), the clamped `daysLeft`,
`urgencySum = sum(urgency) or 1 if zero`, `share = urgency / urgencySum`,
`rawQuota = remainingItems / daysLeft`, and
`dailyQuota = max(5, ceil(rawQuota * share * goalCount))`.  Written from the
spec's wording, to be compared with `getExamStats`. -/
def specAllocate (exams : List Exam) (decks : List Deck) (cards : List Card)
    (now : ℤ) : List ExamStats :=
  exams.map (fun e =>
    let examCards := cards.filter (cardInExam e decks)
    let totalItems := examCards.length
    let masteredItems := (examCards.filter (fun c => decide (3 ≤ c.repetition))).length
    let dueItems := (examCards.filter (fun c => decide (c.nextReview ≤ now))).length
    let daysLeft := specDaysLeft e.examDate now
    let urgencySum := orOne ((exams.map (fun e2 => specUrgency e2.examDate now e2.weight)).sum)
    let share := specUrgency e.examDate now e.weight / urgencySum
    let rawQuota := ((totalItems : ℚ) - (masteredItems : ℚ)) / (daysLeft : ℚ)
    { examId := e.id
      daysLeft := daysLeft
      totalCards := totalItems
      masteredCards := masteredItems
      dueCards := dueItems
      dailyQuota := max 5 ⌈rawQuota * share * (exams.length : ℚ)⌉ })

/-- Goal A of the spec's Scenario E: deadline 10 days out, weight 1. -/
def examA : Exam := ⟨"A", "A", 864000000, "DeckA", 1, []⟩

/-- Goal B of the spec's Scenario E: deadline 5 days out, weight 2. -/
def examB : Exam := ⟨"B", "B", 432000000, "DeckB", 2, []⟩

/-- The decks of Scenario E. -/
def decksE : List Deck := [⟨"dA", "DeckA"⟩, ⟨"dB", "DeckB"⟩]

/-- A not-yet-mastered card of Goal A's deck. -/
def cardA : Card := ⟨"a", "dA", none, 0, 0, 5/2, none, 0⟩

/-- A not-yet-mastered card of Goal B's deck. -/
def cardB : Card := ⟨"b", "dB", none, 0, 0, 5/2, none, 0⟩

/-- The card store of Scenario E: 50 remaining items for Goal A, 20 for
Goal B. -/
def cardsE : List Card := List.replicate 50 cardA ++ List.replicate 20 cardB

/-! ## Helper lemmas about `calculateNextReview` -/

/-- For a successful rating (`quality ≥ 3`) every branch returns the same
new ease factor. -/
theorem calc_easeFactor_of_three_le (q rep : ℤ) (ef i : ℚ) (h : 3 ≤ q) :
    (calculateNextReview q rep ef i).easeFactor =
      max (13/10) (ef + (1/10 - ((5 - q : ℤ) : ℚ) * (8/100 + ((5 - q : ℤ) : ℚ) * (2/100)))) := by
  unfold calculateNextReview
  split_ifs <;> first | rfl | (exfalso; omega)

/-- A failed rating (`quality < 3`) always resets the repetition count. -/
theorem calc_repetition_of_lt_three (q rep : ℤ) (ef i : ℚ) (h : q < 3) :
    (calculateNextReview q rep ef i).repetition = 0 := by
  unfold calculateNextReview
  split_ifs <;> first | rfl | (exfalso; omega)

/-- Ease factor of the "Again" branch (`quality < 2`). -/
theorem calc_ease_again (q rep : ℤ) (ef i : ℚ) (h : q < 2) :
    (calculateNextReview q rep ef i).easeFactor = max (13/10) (ef - 2/10) := by
  unfold calculateNextReview
  split_ifs <;> first | rfl | (exfalso; omega)

/-- Ease factor of the "Hard-fail" branch (`quality = 2`). -/
theorem calc_ease_hardfail (rep : ℤ) (ef i : ℚ) :
    (calculateNextReview 2 rep ef i).easeFactor = max (13/10) (ef - 1/10) := by
  unfold calculateNextReview
  split_ifs <;> first | rfl | (exfalso; omega)

/-- The numeric invariants of the core transition: for any quality, a state
with non-negative repetition and interval maps to ease ≥ 1.3, interval ≥ one
minute, repetition ≥ 0. -/
theorem calc_invariants (q rep : ℤ) (ef i : ℚ) (hrep : 0 ≤ rep) (hi : 0 ≤ i) :
    13/10 ≤ (calculateNextReview q rep ef i).easeFactor ∧
    1/1440 ≤ (calculateNextReview q rep ef i).interval ∧
    0 ≤ (calculateNextReview q rep ef i).repetition := by
  unfold calculateNextReview MINUTES_PER_DAY
  split_ifs <;> dsimp only <;> refine ⟨le_max_left _ _, ?_, by omega⟩ <;>
    try norm_num
  all_goals first
    | (left; linarith)
    | (push_neg at *; left; linarith)

/-! ## Claim theorems for the review state machine -/

/-- C1: for every quality in [0,5] and every input state with
easeFactor ≥ 1.3, repetition ≥ 0 and interval ≥ 0, the state returned by
`calculateNextReview` — and hence the card returned by `reviewCard` —
satisfies easeFactor ≥ 1.3, interval ≥ 1/1440 and repetition ≥ 0. -/
theorem c1_invariants (q rep : ℤ) (ef i : ℚ) (card : Card) (now : ℤ)
    (hq0 : 0 ≤ q) (hq5 : q ≤ 5) (hrep : 0 ≤ rep) (hef : 13/10 ≤ ef) (hi : 0 ≤ i)
    (hcrep : 0 ≤ card.repetition) (hcef : 13/10 ≤ card.easeFactor)
    (hci : 0 ≤ card.interval) :
    (13/10 ≤ (calculateNextReview q rep ef i).easeFactor ∧
      1/1440 ≤ (calculateNextReview q rep ef i).interval ∧
      0 ≤ (calculateNextReview q rep ef i).repetition) ∧
    (13/10 ≤ (reviewCard card q now).easeFactor ∧
      1/1440 ≤ (reviewCard card q now).interval ∧
      0 ≤ (reviewCard card q now).repetition) := by
  have H := calc_invariants q card.repetition card.easeFactor card.interval hcrep hci
  refine ⟨calc_invariants q rep ef i hrep hi, ?_, ?_, ?_⟩
  · unfold reviewCard
    exact H.1
  · unfold reviewCard
    dsimp only
    split
    · split_ifs
      · exact le_trans H.2.1 (le_max_right _ _)
      · exact H.2.1
    · exact H.2.1
  · unfold reviewCard
    exact H.2.2

/-- Witness for C1 at quality 4 on a fresh card. -/
theorem c1_invariants_witness :
    13/10 ≤ (calculateNextReview 4 0 (5/2) 0).easeFactor ∧
    1/1440 ≤ (calculateNextReview 4 0 (5/2) 0).interval ∧
    0 ≤ (calculateNextReview 4 0 (5/2) 0).repetition := by
  exact (c1_invariants 4 0 (5/2) 0 ⟨"c", "d", none, 0, 0, 5/2, none, 0⟩ 0
    (by norm_num) (by norm_num) (by norm_num) (by norm_num) (by norm_num)
    (by norm_num) (by norm_num) (by norm_num)).1

set_option maxHeartbeats 1600000 in
/-- C2 (amended): for every state with repetition = 1 and interval ≥ 1 and
quality in {3,4,5}, `calculateNextReview` applies the Young rules —
quality 3 gives max(1, interval); quality 5 gives
max(interval+1, round(interval·ease'·3)); quality 4 gives
max(4, round(interval·ease')); repetition becomes 2 — with
ease' = max(1.3, ef + (0.1 − (5−q)(0.08+(5−q)·0.02))).  (The original claim
allowed any interval ≥ 0; it fails for interval < 1, where the code takes
the learning branch — see `c2_counterexample`.) -/
theorem c2_young_rules (rep : ℤ) (ef i : ℚ) (hrep : rep = 1) (hi : 1 ≤ i) :
    calculateNextReview 3 rep ef i = ⟨max 1 i, 2, specEase 3 ef⟩ ∧
    calculateNextReview 5 rep ef i =
      ⟨max (i + 1) ((jround (i * specEase 5 ef * 3) : ℤ) : ℚ), 2, specEase 5 ef⟩ ∧
    calculateNextReview 4 rep ef i =
      ⟨max 4 ((jround (i * specEase 4 ef) : ℤ) : ℚ), 2, specEase 4 ef⟩ := by
  subst hrep
  refine ⟨?_, ?_, ?_⟩
  · unfold calculateNextReview specEase MINUTES_PER_DAY
    split_ifs
    all_goals first
      | rfl
      | (exfalso; omega)
      | (exfalso; obtain ⟨h0, hlt⟩ := ‹_ ∧ _›; rcases h0 with h0 | h0 <;>
          first | omega | linarith)
      | (exfalso; rcases ‹_ ∨ _› with h0 | h0 <;> first | omega | linarith)
  · unfold calculateNextReview specEase MINUTES_PER_DAY
    split_ifs
    all_goals first
      | rfl
      | (exfalso; omega)
      | (exfalso; obtain ⟨h0, hlt⟩ := ‹_ ∧ _›; rcases h0 with h0 | h0 <;>
          first | omega | linarith)
      | (exfalso; rcases ‹_ ∨ _› with h0 | h0 <;> first | omega | linarith)
  · unfold calculateNextReview specEase MINUTES_PER_DAY
    split_ifs
    all_goals first
      | rfl
      | (exfalso; omega)
      | (exfalso; obtain ⟨h0, hlt⟩ := ‹_ ∧ _›; rcases h0 with h0 | h0 <;>
          first | omega | linarith)
      | (exfalso; rcases ‹_ ∨ _› with h0 | h0 <;> first | omega | linarith)

/-- C2 counterexample: at repetition 1, interval 0 (allowed by the claim's
"any interval ≥ 0") and quality 4, the code takes the learning step-0 branch
(10 minutes, repetition 0), not the claimed Young rule
max(4, round(0·ease')) with repetition 2. -/
theorem c2_counterexample :
    ¬(calculateNextReview 4 1 (5/2) 0 =
        ⟨max 4 ((jround ((0:ℚ) * specEase 4 (5/2)) : ℤ) : ℚ), 2, specEase 4 (5/2)⟩) := by
  have h : calculateNextReview 4 1 (5/2) 0 = ⟨10/1440, 0, 5/2⟩ := by
    unfold calculateNextReview
    norm_num [MINUTES_PER_DAY, max_def]
  rw [h]
  intro hc
  exact absurd (congrArg ReviewResult.repetition hc) (by norm_num)

/-- Witness for C2 at the spec's Scenario C state (rep 1, interval 4,
ease 2.5). -/
theorem c2_young_rules_witness :
    calculateNextReview 3 1 (5/2) 4 = ⟨max 1 4, 2, specEase 3 (5/2)⟩ := by
  exact (c2_young_rules 1 (5/2) 4 rfl (by norm_num)).1

/-- C8: for every mature state (repetition ≥ 2, easeFactor ≥ 1.3,
interval ≥ 1/1440) and quality 4 or 5, the new interval is at least the old
one. -/
theorem c8_good_easy_monotone (q rep : ℤ) (ef i : ℚ)
    (hrep : 2 ≤ rep) (hef : 13/10 ≤ ef) (hi : 1/1440 ≤ i) (hq : q = 4 ∨ q = 5) :
    i ≤ (calculateNextReview q rep ef i).interval := by
  unfold calculateNextReview MINUTES_PER_DAY
  split_ifs <;> dsimp only
  all_goals try (exfalso; omega)
  all_goals try linarith
  all_goals try (refine le_trans ?_ (le_max_left _ _); linarith)
  all_goals (rcases ‹rep = 0 ∨ i < 1› with h0 | h0 <;> first | (exfalso; omega) | linarith)

/-- Witness for C8 at repetition 2, interval 10, ease 2.5, quality 4. -/
theorem c8_good_easy_monotone_witness :
    (10 : ℚ) ≤ (calculateNextReview 4 2 (5/2) 10).interval := by
  exact c8_good_easy_monotone 4 2 (5/2) 10 (by norm_num) (by norm_num) (by norm_num)
    (Or.inl rfl)

/-- C10: for every input with easeFactor ≥ 1.3 and quality in [0,5], the
returned ease factor is max(1.3, ef−0.2) for quality ≤ 1, max(1.3, ef−0.1)
for quality 2, max(1.3, ef−0.14) for quality 3, exactly ef for quality 4 and
ef+0.1 for quality 5; in particular it never exceeds ef unless quality = 5. -/
theorem c10_ease_profile (q rep : ℤ) (ef i : ℚ)
    (hq0 : 0 ≤ q) (hq5 : q ≤ 5) (hef : 13/10 ≤ ef) :
    (calculateNextReview q rep ef i).easeFactor =
      (if q ≤ 1 then max (13/10) (ef - 2/10)
       else if q = 2 then max (13/10) (ef - 1/10)
       else if q = 3 then max (13/10) (ef - 14/100)
       else if q = 4 then ef
       else ef + 1/10) ∧
    (q ≠ 5 → (calculateNextReview q rep ef i).easeFactor ≤ ef) := by
  by_cases h1 : q ≤ 1
  · rw [if_pos h1, calc_ease_again q rep ef i (by omega)]
    exact ⟨rfl, fun _ => max_le (by linarith) (by linarith)⟩
  · by_cases h2 : q = 2
    · subst h2
      rw [if_neg h1, if_pos rfl, calc_ease_hardfail rep ef i]
      exact ⟨rfl, fun _ => max_le (by linarith) (by linarith)⟩
    · by_cases h3 : q = 3
      · subst h3
        rw [if_neg h1, if_neg h2, if_pos rfl, calc_easeFactor_of_three_le 3 rep ef i (by omega)]
        have e : ef + (1/10 - ((5 - 3 : ℤ) : ℚ) * (8/100 + ((5 - 3 : ℤ) : ℚ) * (2/100)))
            = ef - 14/100 := by push_cast; ring
        rw [e]
        exact ⟨rfl, fun _ => max_le (by linarith) (by linarith)⟩
      · by_cases h4 : q = 4
        · subst h4
          rw [if_neg h1, if_neg h2, if_neg h3, if_pos rfl,
            calc_easeFactor_of_three_le 4 rep ef i (by omega)]
          have e : ef + (1/10 - ((5 - 4 : ℤ) : ℚ) * (8/100 + ((5 - 4 : ℤ) : ℚ) * (2/100)))
              = ef := by push_cast; ring
          rw [e, max_eq_right (by linarith)]
          exact ⟨rfl, fun _ => le_refl ef⟩
        · have h5 : q = 5 := by omega
          subst h5
          rw [if_neg h1, if_neg h2, if_neg h3, if_neg h4,
            calc_easeFactor_of_three_le 5 rep ef i (by omega)]
          have e : ef + (1/10 - ((5 - 5 : ℤ) : ℚ) * (8/100 + ((5 - 5 : ℤ) : ℚ) * (2/100)))
              = ef + 1/10 := by push_cast; ring
          rw [e, max_eq_right (by linarith)]
          exact ⟨rfl, fun hne => absurd rfl hne⟩

/-- Witness for C10 at quality 3, ease 2.5. -/
theorem c10_ease_profile_witness :
    (calculateNextReview 3 1 (5/2) 4).easeFactor =
      (if (3:ℤ) ≤ 1 then max (13/10) ((5/2 : ℚ) - 2/10)
       else if (3:ℤ) = 2 then max (13/10) ((5/2 : ℚ) - 1/10)
       else if (3:ℤ) = 3 then max (13/10) ((5/2 : ℚ) - 14/100)
       else if (3:ℤ) = 4 then (5/2 : ℚ)
       else (5/2 : ℚ) + 1/10) := by
  exact (c10_ease_profile 3 1 (5/2) 4 (by norm_num) (by norm_num) (by norm_num)).1

/-- C3: the review state machine rejects exactly the qualities outside
[0,5] with `InvalidRating` (in the TypeScript source this rejection is the
`Quality = 0|1|2|3|4|5` union type, which bars invalid ratings from reaching
`calculateNextReview`), and on [0,5] it is total: it returns the
`calculateNextReview` transition for every state. -/
theorem c3_invalid_rating (q rep : ℤ) (ef i : ℚ) :
    (advance q rep ef i = .error .invalidRating ↔ q < 0 ∨ 5 < q) ∧
    (0 ≤ q → q ≤ 5 → advance q rep ef i = .ok (calculateNextReview q rep ef i)) := by
  unfold advance
  constructor
  · split_ifs with h
    · exact ⟨fun hc => absurd hc (by simp), fun hc => absurd h (by omega)⟩
    · exact ⟨fun _ => by omega, fun _ => rfl⟩
  · intro h1 h2
    rw [if_pos ⟨h1, h2⟩]

/-- Witness for C3: quality 7 is rejected, quality 4 is accepted. -/
theorem c3_invalid_rating_witness :
    advance 7 0 (5/2) 0 = .error .invalidRating ∧
    advance 4 0 (5/2) 0 = .ok (calculateNextReview 4 0 (5/2) 0) :=
  ⟨(c3_invalid_rating 7 0 (5/2) 0).1.mpr (by norm_num),
   (c3_invalid_rating 4 0 (5/2) 0).2 (by norm_num) (by norm_num)⟩

/-- C4: `reviewCard` records `lapseInterval = interval` exactly when
quality < 3 and interval ≥ 1 and repetition ≥ 1 (otherwise the stored value
is kept); whenever `lapseInterval` is set and the core transition yields
interval ≥ 1 and repetition ≥ 1, the final interval is
max(newInterval, round(lapseInterval·0.5)) and `lapseInterval` is cleared;
and Scenario D holds: the mature item (3, 10, 2.5) rated 1 becomes
(1/1440, 0, 2.3) with lapseInterval 10, and a subsequent 5 yields interval
5, repetition 1, lapseInterval cleared. -/
theorem c4_lapse_bookkeeping (card : Card) (q now : ℤ) (L : ℚ) :
    (q < 3 → (reviewCard card q now).lapseInterval =
        (if 1 ≤ card.interval ∧ 1 ≤ card.repetition then some card.interval
         else card.lapseInterval)) ∧
    (card.lapseInterval = some L →
      1 ≤ (calculateNextReview q card.repetition card.easeFactor card.interval).interval →
      1 ≤ (calculateNextReview q card.repetition card.easeFactor card.interval).repetition →
      (reviewCard card q now).interval =
          max (calculateNextReview q card.repetition card.easeFactor card.interval).interval
            ((jround (L * (1/2)) : ℤ) : ℚ) ∧
        (reviewCard card q now).lapseInterval = none) ∧
    (reviewCard scenarioDCard 1 0 =
        ⟨"c", "d", none, 1/1440, 0, 23/10, some 10, 60000⟩ ∧
      reviewCard (reviewCard scenarioDCard 1 0) 5 0 =
        ⟨"c", "d", none, 5, 1, 12/5, none, 5 * 86400000⟩) := by
  refine ⟨?_, ?_, ?_, ?_⟩
  · intro hq
    have hrep0 := calc_repetition_of_lt_three q card.repetition card.easeFactor card.interval hq
    unfold reviewCard recordedLapse
    dsimp only
    by_cases hrec : 1 ≤ card.interval ∧ 1 ≤ card.repetition
    · rw [if_pos hrec,
        if_pos (show q < 3 ∧ 1 ≤ card.interval ∧ 1 ≤ card.repetition from ⟨hq, hrec.1, hrec.2⟩)]
      dsimp only
      rw [if_neg (fun hc => by rw [hrep0] at hc; exact absurd hc.2 (by norm_num))]
    · rw [if_neg hrec, if_neg (fun hc => hrec ⟨hc.2.1, hc.2.2⟩)]
      cases hcl : card.lapseInterval with
      | none => rfl
      | some l2 =>
          dsimp only
          rw [if_neg (fun hc => by rw [hrep0] at hc; exact absurd hc.2 (by norm_num))]
  · intro hset h1 h2
    have hq3 : ¬(q < 3) := fun hq => by
      rw [calc_repetition_of_lt_three q card.repetition card.easeFactor card.interval hq] at h2
      exact absurd h2 (by norm_num)
    unfold reviewCard recordedLapse
    dsimp only
    rw [if_neg (fun hc => hq3 hc.1), hset]
    dsimp only
    rw [if_pos ⟨h1, h2⟩, if_pos ⟨h1, h2⟩]
    refine ⟨?_, rfl⟩
    unfold LAPSE_NEW_INTERVAL_PERCENT
    rw [max_assoc, max_eq_right (le_trans h1 (le_max_right _ _)), max_comm]
  · unfold reviewCard recordedLapse calculateNextReview nextReviewTimestamp jround scenarioDCard
    norm_num [MINUTES_PER_DAY, max_def, LAPSE_NEW_INTERVAL_PERCENT, Int.floor_eq_iff]
  · unfold reviewCard recordedLapse calculateNextReview nextReviewTimestamp jround scenarioDCard
    norm_num [MINUTES_PER_DAY, max_def, LAPSE_NEW_INTERVAL_PERCENT, Int.floor_eq_iff]

/-- Witness for C4: the relearning card of Scenario D (interval 1/1440,
repetition 0, lapseInterval 10) regraduates with quality 5 under the
lapse-recovery override. -/
theorem c4_lapse_bookkeeping_witness :
    (reviewCard (⟨"c", "d", none, 1/1440, 0, 23/10, some 10, 60000⟩ : Card) 5 0).interval =
        max (calculateNextReview 5 0 (23/10) (1/1440)).interval
          ((jround ((10:ℚ) * (1/2)) : ℤ) : ℚ) ∧
      (reviewCard (⟨"c", "d", none, 1/1440, 0, 23/10, some 10, 60000⟩ : Card) 5 0).lapseInterval
        = none := by
  apply (c4_lapse_bookkeeping ⟨"c", "d", none, 1/1440, 0, 23/10, some 10, 60000⟩ 5 0 10).2.1
  · rfl
  · unfold calculateNextReview
    norm_num [MINUTES_PER_DAY, max_def]
  · unfold calculateNextReview
    norm_num [MINUTES_PER_DAY, max_def]

/-- The due-ordering comparison is total. -/
theorem timeLe_total (a b : Card) : timeLe a b || timeLe b a := by
  simp only [timeLe, Bool.or_eq_true, decide_eq_true_eq]
  omega

/-- The due-ordering comparison is transitive. -/
theorem timeLe_trans (a b c : Card) : timeLe a b → timeLe b c → timeLe a c := by
  simp only [timeLe, decide_eq_true_eq]
  omega

/-- C9: the due-set filter is idempotent — `dueItems(dueItems(S,t),t) =
dueItems(S,t)` — selects exactly the items with `nextReviewAt ≤ t`, orders
them by `nextReviewAt` ascending, and maps the empty list to the empty
list. -/
theorem c9_due_filter (cards : List Card) (now : ℤ) (c : Card) :
    getDueCards (getDueCards cards now) now = getDueCards cards now ∧
    (c ∈ getDueCards cards now ↔ c ∈ cards ∧ c.nextReview ≤ now) ∧
    List.Pairwise (fun a b => a.nextReview ≤ b.nextReview) (getDueCards cards now) ∧
    getDueCards ([] : List Card) now = [] := by
  have hsorted : ∀ (l : List Card), List.Pairwise (fun a b => timeLe a b = true)
      (l.mergeSort timeLe) :=
    fun l => List.sorted_mergeSort (fun a b c => timeLe_trans a b c) timeLe_total l
  refine ⟨?_, ?_, ?_, by simp [getDueCards]⟩
  · unfold getDueCards
    rw [List.filter_eq_self.mpr, List.mergeSort_of_sorted (hsorted _)]
    intro a ha
    rw [List.mem_mergeSort, List.mem_filter] at ha
    exact ha.2
  · unfold getDueCards
    rw [List.mem_mergeSort, List.mem_filter]
    simp [isDue]
  · unfold getDueCards
    exact (hsorted _).imp (by simp [timeLe])

/-- The allocator embedding equals the spec's per-goal formula whenever
there is at least one goal. -/
theorem getExamStats_eq_specAllocate (exams : List Exam) (decks : List Deck)
    (cards : List Card) (now : ℤ) (hne : exams ≠ []) :
    getExamStats exams decks cards now = specAllocate exams decks cards now := by
  have hsum : (exams.map (fun e2 => (rawGoalOf e2 decks cards now).urgency)).sum
      = (exams.map (fun e2 => specUrgency e2.examDate now e2.weight)).sum := by
    apply congrArg
    apply List.map_congr_left
    intro e2 _
    rfl
  unfold getExamStats specAllocate
  rw [if_neg hne]
  simp only [List.map_map]
  apply List.map_congr_left
  intro e he
  simp only [Function.comp_def]
  rw [hsum]
  simp only [ExamStats.mk.injEq]
  refine ⟨rfl, rfl, rfl, rfl, rfl, ?_⟩
  unfold rawGoalOf specUrgency
  unfold specDaysLeft
  dsimp only
  push_cast
  ring_nf

/-- Goal A's due cards in Scenario E. -/
theorem filterA_eq : cardsE.filter (cardInExam examA decksE) = List.replicate 50 cardA := by
  unfold cardsE
  rw [List.filter_append, List.filter_replicate, List.filter_replicate]
  simp [show cardInExam examA decksE cardA = true by decide,
        show cardInExam examA decksE cardB = false by decide]

/-- Goal B's due cards in Scenario E. -/
theorem filterB_eq : cardsE.filter (cardInExam examB decksE) = List.replicate 20 cardB := by
  unfold cardsE
  rw [List.filter_append, List.filter_replicate, List.filter_replicate]
  simp [show cardInExam examB decksE cardA = false by decide,
        show cardInExam examB decksE cardB = true by decide]

/-- Goal A's snapshot in Scenario E: 10 days left, 50 remaining, urgency
0.1. -/
theorem rawGoalA_eq : rawGoalOf examA decksE cardsE 0 = ⟨examA, 10, 50, 0, 50, 50, 1/10⟩ := by
  unfold rawGoalOf
  rw [filterA_eq]
  dsimp only
  rw [List.filter_replicate, List.filter_replicate]
  simp only [RawGoal.mk.injEq]
  norm_num [cardA, examA]

/-- Goal B's snapshot in Scenario E: 5 days left, 20 remaining, urgency
0.4. -/
theorem rawGoalB_eq : rawGoalOf examB decksE cardsE 0 = ⟨examB, 5, 20, 0, 20, 20, 2/5⟩ := by
  unfold rawGoalOf
  rw [filterB_eq]
  dsimp only
  rw [List.filter_replicate, List.filter_replicate]
  simp only [RawGoal.mk.injEq]
  norm_num [cardB, examB]

/-- Scenario E evaluated: quotas 5 (Goal A) and 7 (Goal B). -/
theorem getExamStats_scenarioE : getExamStats [examA, examB] decksE cardsE 0 =
    [⟨"A", 10, 50, 0, 50, 5⟩, ⟨"B", 5, 20, 0, 20, 7⟩] := by
  unfold getExamStats
  rw [if_neg (by simp)]
  simp only [List.map_cons, List.map_nil, rawGoalA_eq, rawGoalB_eq, List.sum_cons,
    List.sum_nil]
  norm_num [orOne, examA, examB, ExamStats.mk.injEq]
  have h7 : ⌈(32:ℚ) / 5⌉ = 7 := by
    rw [Int.ceil_eq_iff] <;> norm_num
  rw [h7]
  decide

/-- C5: for every non-empty list of goals, the allocator assigns each goal
`dailyQuota = max(5, ceil((remainingItems / daysLeft) * share * goalCount))`
with `daysLeft = max(1, ceil((deadline − now) / 1 day))`,
`urgency = (1/daysLeft)·weight`, `urgencySum = sum(urgency) or 1 if zero`
and `share = urgency / urgencySum` (the whole allocator output equals the
spec-worded `specAllocate`); and in the spec's Scenario E (Goal A: 10 days
left, weight 1, 50 remaining; Goal B: 5 days left, weight 2, 20 remaining)
the quotas are 5 and 7. -/
theorem c5_quota_formula (exams : List Exam) (decks : List Deck) (cards : List Card)
    (now : ℤ) (hne : exams ≠ []) :
    getExamStats exams decks cards now = specAllocate exams decks cards now ∧
    getExamStats [examA, examB] decksE cardsE 0 =
      [⟨"A", 10, 50, 0, 50, 5⟩, ⟨"B", 5, 20, 0, 20, 7⟩] :=
  ⟨getExamStats_eq_specAllocate exams decks cards now hne, getExamStats_scenarioE⟩

/-- Witness for C5 on the Scenario E store. -/
theorem c5_quota_formula_witness :
    getExamStats [examA, examB] decksE cardsE 0 =
      specAllocate [examA, examB] decksE cardsE 0 :=
  (c5_quota_formula [examA, examB] decksE cardsE 0 (by simp)).1

/-- The comparator test `queueLe` agrees with the spec-worded ordering
`specLe`. -/
theorem queueLe_iff (exam : Exam) (recs : List WeakPointRecommendation) (a b : Card) :
    queueLe exam recs a b = true ↔ specLe exam recs a b := by
  unfold queueLe specLe
  by_cases h1 : tierOf exam recs a = tierOf exam recs b
  · rw [if_pos h1]
    by_cases h2 : weakScore recs exam a = weakScore recs exam b
    · rw [if_pos h2]
      simp only [decide_eq_true_eq]
      constructor
      · intro hn
        exact Or.inr ⟨h1, Or.inr ⟨h2, hn⟩⟩
      · rintro (ht | ⟨-, hw | ⟨-, hn⟩⟩)
        · omega
        · exact absurd h2 (by rw [h2] at hw ⊢; exact absurd hw (lt_irrefl _))
        · exact hn
    · rw [if_neg h2]
      simp only [decide_eq_true_eq]
      constructor
      · intro hw
        exact Or.inr ⟨h1, Or.inl (lt_of_le_of_ne hw (fun hc => h2 hc.symm))⟩
      · rintro (ht | ⟨-, hw | ⟨hw, -⟩⟩)
        · omega
        · exact le_of_lt hw
        · exact absurd hw h2
  · rw [if_neg h1]
    simp only [decide_eq_true_eq]
    constructor
    · intro ht
      exact Or.inl (lt_of_le_of_ne ht (fun hc => h1 hc.symm))
    · rintro (ht | ⟨he, -⟩)
      · exact le_of_lt ht
      · exact absurd he h1

/-- The spec ordering is transitive. -/
theorem specLe_trans (exam : Exam) (recs : List WeakPointRecommendation) (a b c : Card) :
    specLe exam recs a b → specLe exam recs b c → specLe exam recs a c := by
  intro h1 h2
  rcases h1 with l1 | ⟨e1, l1 | ⟨f1, n1⟩⟩ <;> rcases h2 with l2 | ⟨e2, l2 | ⟨f2, n2⟩⟩ <;>
    first
      | (left; omega)
      | (right; refine ⟨by omega, ?_⟩;
          first
            | (left; linarith)
            | (right; exact ⟨by linarith, by omega⟩))

/-- The spec ordering is total. -/
theorem specLe_total (exam : Exam) (recs : List WeakPointRecommendation) (a b : Card) :
    specLe exam recs a b ∨ specLe exam recs b a := by
  unfold specLe
  rcases Nat.lt_trichotomy (tierOf exam recs a) (tierOf exam recs b) with ht | ht | ht
  · exact Or.inr (Or.inl ht)
  · rcases lt_trichotomy (weakScore recs exam a) (weakScore recs exam b) with hw | hw | hw
    · exact Or.inr (Or.inr ⟨ht.symm, Or.inl hw⟩)
    · rcases Int.le_total a.nextReview b.nextReview with hn | hn
      · exact Or.inl (Or.inr ⟨ht, Or.inr ⟨hw, hn⟩⟩)
      · exact Or.inr (Or.inr ⟨ht.symm, Or.inr ⟨hw.symm, hn⟩⟩)
    · exact Or.inl (Or.inr ⟨ht, Or.inl hw⟩)
  · exact Or.inl (Or.inl ht)

/-- The comparator test is transitive. -/
theorem queueLe_trans (exam : Exam) (recs : List WeakPointRecommendation) (a b c : Card) :
    queueLe exam recs a b → queueLe exam recs b c → queueLe exam recs a c := by
  intro h1 h2
  exact (queueLe_iff exam recs a c).mpr
    (specLe_trans exam recs a b c ((queueLe_iff exam recs a b).mp h1)
      ((queueLe_iff exam recs b c).mp h2))

/-- The comparator test is total. -/
theorem queueLe_total (exam : Exam) (recs : List WeakPointRecommendation) (a b : Card) :
    queueLe exam recs a b || queueLe exam recs b a := by
  rcases specLe_total exam recs a b with h | h
  · simp [(queueLe_iff exam recs a b).mpr h]
  · simp [(queueLe_iff exam recs b a).mpr h]

/-- C6: within each goal, the queue builder's per-goal list is a
permutation of that goal's due items sorted by tier descending, then
priorityScore descending, then nextReviewAt ascending (then truncated to the
quota by `queueBuckets`); the tier of an item is 3 for
priority-subject-and-weak-point, 2 for priority only, 1 for weak-point only,
0 otherwise; and an absent weak-point feed scores 0. -/
theorem c6_tier_ordering (exam : Exam) (decks : List Deck) (cards : List Card)
    (recs : List WeakPointRecommendation) (now : ℤ) (c : Card) :
    (goalSortedDue exam decks cards recs now).Perm
      (cards.filter (fun c2 => cardInExam exam decks c2 && decide (c2.nextReview ≤ now))) ∧
    List.Pairwise (specLe exam recs) (goalSortedDue exam decks cards recs now) ∧
    weakScore [] exam c = 0 ∧
    tierOf exam recs c =
      (if isPrioritySubject exam c = true ∧ 0 < weakScore recs exam c then 3
       else if isPrioritySubject exam c = true then 2
       else if 0 < weakScore recs exam c then 1
       else 0) := by
  refine ⟨?_, ?_, rfl, rfl⟩
  · exact (List.mergeSort_perm _ _).trans (List.mergeSort_perm _ _)
  · exact (List.sorted_mergeSort (queueLe_trans exam recs) (queueLe_total exam recs)
      _).imp (fun h => (queueLe_iff exam recs _ _).mp h)

/-- The loop `roundRobin` on all-exhausted buckets stops. -/
theorem roundRobin_all_empty {α : Type} (bs : List (List α)) (h : ∀ b ∈ bs, b = []) :
    roundRobin bs = [] := by
  rw [roundRobin]
  rw [dif_pos]
  simp only [List.all_eq_true, List.isEmpty_iff]
  exact h

/-- One round-robin pass: when some bucket still has items, the loop emits
the head of every non-exhausted bucket in order and continues on the
tails. -/
theorem roundRobin_step {α : Type} (bs : List (List α)) (h : ∃ b ∈ bs, b ≠ []) :
    roundRobin bs = bs.filterMap List.head? ++ roundRobin (bs.map List.tail) := by
  rw [roundRobin]
  rw [dif_neg]
  simp only [List.all_eq_true, List.isEmpty_iff]
  push_neg
  exact h

/-- Taking every head and then everything remaining is a permutation of
everything. -/
theorem heads_append_tails_perm {α : Type} (bs : List (List α)) :
    (bs.filterMap List.head? ++ (bs.map List.tail).flatten).Perm bs.flatten := by
  induction bs with
  | nil => simp
  | cons hd tl ih =>
      cases hd with
      | nil => simpa using ih
      | cons x xs =>
          simp only [List.filterMap_cons, List.head?_cons, List.map_cons, List.tail_cons,
            List.flatten_cons, List.cons_append]
          refine List.Perm.cons x ?_
          rw [show tl.filterMap List.head? ++ (xs ++ (tl.map List.tail).flatten)
              = (tl.filterMap List.head? ++ xs) ++ (tl.map List.tail).flatten from
            (List.append_assoc _ _ _).symm]
          refine (List.Perm.append_right _ List.perm_append_comm).trans ?_
          rw [List.append_assoc]
          exact ih.append_left xs

/-- The round-robin output is a permutation of the concatenation of the
buckets. -/
theorem roundRobin_perm_flatten {α : Type} (bs : List (List α)) :
    (roundRobin bs).Perm bs.flatten := by
  induction bs using roundRobin.induct with
  | case1 bs h =>
      rw [roundRobin_all_empty bs (by simpa [List.all_eq_true, List.isEmpty_iff] using h)]
      have he : bs.flatten = [] := by
        simp only [List.all_eq_true, List.isEmpty_iff] at h
        simp only [List.flatten_eq_nil_iff]
        exact h
      rw [he]
  | case2 bs h ih =>
      rw [roundRobin_step bs
        (by simpa [List.all_eq_true, List.isEmpty_iff, not_forall] using h)]
      exact ((List.Perm.refl _).append ih).trans (heads_append_tails_perm bs)

/-- C7: with no goals the queue degrades to the plain due-set filter; with
goals it is the round-robin interleaving of the per-goal truncated buckets,
where the interleaving repeatedly takes the head of every non-exhausted
bucket in goal order until all are exhausted; the output is a permutation
of the buckets' concatenation, and each goal's bucket holds at most its
`dailyQuota` items. -/
theorem c7_round_robin (exams : List Exam) (decks : List Deck) (cards : List Card)
    (recs : List WeakPointRecommendation) (now : ℤ) :
    (exams = [] → getSmartStudyQueue exams decks cards recs now = getDueCards cards now) ∧
    (exams ≠ [] → getSmartStudyQueue exams decks cards recs now =
        roundRobin (queueBuckets exams decks cards recs now)) ∧
    (∀ bs : List (List Card), (∃ b ∈ bs, b ≠ []) →
        roundRobin bs = bs.filterMap List.head? ++ roundRobin (bs.map List.tail)) ∧
    (∀ bs : List (List Card), (∀ b ∈ bs, b = []) → roundRobin bs = []) ∧
    (roundRobin (queueBuckets exams decks cards recs now)).Perm
      (queueBuckets exams decks cards recs now).flatten ∧
    (∀ i : ℕ, ((queueBuckets exams decks cards recs now).getD i []).length ≤
        ((getExamStats exams decks cards now).getD i ⟨"", 0, 0, 0, 0, 0⟩).dailyQuota.toNat) := by
  refine ⟨?_, ?_, roundRobin_step, roundRobin_all_empty, roundRobin_perm_flatten _, ?_⟩
  · intro h
    subst h
    have h0 : getExamStats [] decks cards now = [] := by
      unfold getExamStats
      simp
    unfold getSmartStudyQueue
    rw [if_pos h0]
  · intro hne
    have h0 : getExamStats exams decks cards now ≠ [] := by
      unfold getExamStats
      rw [if_neg hne]
      simpa [List.map_eq_nil_iff] using hne
    unfold getSmartStudyQueue
    rw [if_neg h0]
  · intro i
    unfold queueBuckets
    generalize (getExamStats exams decks cards now) = l
    induction l generalizing i with
    | nil => simp
    | cons s tl ih =>
        cases i with
        | zero =>
            rw [List.map_cons, List.getD_cons_zero, List.getD_cons_zero]
            rcases hfind : (exams.find? (fun e => decide (e.id = s.examId))) with _ | exam <;>
              rw [hfind]
            · simp
            · simpa using List.length_take_le _ _
        | succ j =>
            rw [List.map_cons, List.getD_cons_succ, List.getD_cons_succ]
            exact ih j

/-- Witness for C7: the no-goal degradation and the two-goal round-robin
form, on the Scenario E store. -/
theorem c7_round_robin_witness :
    getSmartStudyQueue [] decksE cardsE [] 0 = getDueCards cardsE 0 ∧
    getSmartStudyQueue [examA, examB] decksE cardsE [] 0 =
      roundRobin (queueBuckets [examA, examB] decksE cardsE [] 0) :=
  ⟨(c7_round_robin [] decksE cardsE [] 0).1 rfl,
   (c7_round_robin [examA, examB] decksE cardsE [] 0).2.1 (by simp)⟩

end AnkiApp
